import Mathlib

/-!
Shallow embedding of the hwpers document compositor (src/hwpx/writer.rs,
src/jsontohwpx/table.rs, src/jsontohwpx/image.rs, src/jsontohwpx/error.rs)
and proofs about the specified properties.

Modelling conventions:
* Rust byte buffers (`&[u8]`, `Vec<u8>`) are `List Nat`, each element reduced
  `% 256` where the source reads it as a `u8`.
* Rust `String`/`&str` are Lean `String`; `str::chars()` is `String.data`,
  `chars().count()` is `String.length`; `str::find` (which returns a byte
  offset) is modelled by summing `Char.utf8Size` over the characters before
  the first match.
* Machine integers are `Nat`/`Int` with explicit `% 2^w` where the source
  truncates (`as u16`, `as u32`, `as i32`) or where wrapping can occur.
* `f64` rounding in the pixel-to-millimeter conversion is modelled as exact
  rational arithmetic with round-half-away-from-zero (`f64::round`).
* `HashMap` is an association list updated by consing (lookup = first match);
  `HashSet` is a list with membership semantics.
-/

/-! ## Error taxonomy (src/jsontohwpx/error.rs) -/

/-- Models `JsonToHwpxError` from src/jsontohwpx/error.rs. -/
inductive JsonToHwpxError where
  | Input : String → JsonToHwpxError
  | Conversion : String → JsonToHwpxError
  | Io : String → JsonToHwpxError
  | Hwpx : String → JsonToHwpxError
deriving DecidableEq

/-! ## Image format sniffing (src/hwpx/writer.rs, HwpxImageFormat) -/

/-- Models `HwpxImageFormat` from src/hwpx/writer.rs. -/
inductive HwpxImageFormat where
  | Png
  | Jpeg
  | Gif
  | Bmp
deriving DecidableEq

/-- Models `HwpxImageFormat::extension` from src/hwpx/writer.rs. -/
def HwpxImageFormat.extension : HwpxImageFormat → String
  | .Png => "png"
  | .Jpeg => "jpg"
  | .Gif => "gif"
  | .Bmp => "bmp"

/-- The PNG magic-byte test `data.starts_with(&[0x89,0x50,0x4E,0x47])`. -/
def pngTest (data : List Nat) : Bool := [0x89, 0x50, 0x4E, 0x47].isPrefixOf data

/-- The JPEG magic-byte test `data.starts_with(&[0xFF,0xD8,0xFF])`. -/
def jpegTest (data : List Nat) : Bool := [0xFF, 0xD8, 0xFF].isPrefixOf data

/-- The GIF magic-byte test `data.starts_with(b"GIF")`. -/
def gifTest (data : List Nat) : Bool := [0x47, 0x49, 0x46].isPrefixOf data

/-- The BMP magic-byte test `data.starts_with(b"BM")`. -/
def bmpTest (data : List Nat) : Bool := [0x42, 0x4D].isPrefixOf data

/-- Models `HwpxImageFormat::from_bytes` from src/hwpx/writer.rs lines 183-198:
a buffer shorter than 8 bytes is rejected outright, then the four prefix
tests run in order PNG, JPEG, GIF, BMP. -/
def HwpxImageFormat.from_bytes (data : List Nat) : Option HwpxImageFormat :=
  if data.length < 8 then none
  else if pngTest data then some .Png
  else if jpegTest data then some .Jpeg
  else if gifTest data then some .Gif
  else if bmpTest data then some .Bmp
  else none

/-! ## Image dimension extraction (src/hwpx/writer.rs, HwpxImage) -/

/-- Byte access `data[i]` under a length guard, as a `u8`. -/
def byteAt (data : List Nat) (i : Nat) : Nat := data.getD i 0 % 256

/-- `u32::from_be_bytes([data[i], data[i+1], data[i+2], data[i+3]])`. -/
def be32 (data : List Nat) (i : Nat) : Nat :=
  ((byteAt data i * 256 + byteAt data (i + 1)) * 256 + byteAt data (i + 2)) * 256
    + byteAt data (i + 3)

/-- `u16::from_be_bytes([data[i], data[i+1]])`. -/
def be16 (data : List Nat) (i : Nat) : Nat :=
  byteAt data i * 256 + byteAt data (i + 1)

/-- `u16::from_le_bytes([data[i], data[i+1]])`. -/
def le16 (data : List Nat) (i : Nat) : Nat :=
  byteAt data (i + 1) * 256 + byteAt data i

/-- `u32` little-endian read at offset `i`. -/
def le32 (data : List Nat) (i : Nat) : Nat :=
  ((byteAt data (i + 3) * 256 + byteAt data (i + 2)) * 256 + byteAt data (i + 1)) * 256
    + byteAt data i

/-- `i32::from_le_bytes(..).unsigned_abs()`: reinterpret the `u32` value as a
signed 32-bit integer and take its absolute value. -/
def le32_unsigned_abs (data : List Nat) (i : Nat) : Nat :=
  let v := le32 data i
  if v < 2 ^ 31 then v else 2 ^ 32 - v

/-- Models `HwpxImage::read_png_dimensions` (writer.rs lines 238-246):
big-endian 32-bit width/height at offsets 16 and 20, requiring 24 bytes. -/
def read_png_dimensions (data : List Nat) : Option Nat × Option Nat :=
  if data.length < 24 then (none, none)
  else (some (be32 data 16), some (be32 data 20))

/-- Loop body of `HwpxImage::read_jpeg_dimensions` (writer.rs lines 248-273).
The scan index strictly increases on every iteration, so `data.length` units
of fuel are more than the loop can ever consume starting from index 2. -/
def read_jpeg_loop (data : List Nat) : Nat → Nat → Option Nat × Option Nat
  | _, 0 => (none, none)
  | i, fuel + 1 =>
    if i + 1 < data.length then
      if byteAt data i ≠ 0xFF then read_jpeg_loop data (i + 1) fuel
      else
        let m := byteAt data (i + 1)
        if m = 0xC0 ∨ m = 0xC2 then
          if i + 9 < data.length then (some (be16 data (i + 7)), some (be16 data (i + 5)))
          else (none, none)
        else
          if i + 3 < data.length then read_jpeg_loop data (i + 2 + be16 data (i + 2)) fuel
          else (none, none)
    else (none, none)

/-- Models `HwpxImage::read_jpeg_dimensions`: scan markers from offset 2. -/
def read_jpeg_dimensions (data : List Nat) : Option Nat × Option Nat :=
  read_jpeg_loop data 2 data.length

/-- Models `HwpxImage::read_gif_dimensions` (writer.rs lines 275-283):
little-endian 16-bit width/height at offsets 6 and 8, requiring 10 bytes. -/
def read_gif_dimensions (data : List Nat) : Option Nat × Option Nat :=
  if data.length < 10 then (none, none)
  else (some (le16 data 6), some (le16 data 8))

/-- Models `HwpxImage::read_bmp_dimensions` (writer.rs lines 285-293):
little-endian signed 32-bit width/height at offsets 18 and 22, normalized by
`unsigned_abs`, requiring 26 bytes. -/
def read_bmp_dimensions (data : List Nat) : Option Nat × Option Nat :=
  if data.length < 26 then (none, none)
  else (some (le32_unsigned_abs data 18), some (le32_unsigned_abs data 22))

/-- The per-format dispatch inside `HwpxImage::read_dimensions_mm`
(writer.rs lines 221-226). -/
def read_dimensions_px (data : List Nat) : HwpxImageFormat → Option Nat × Option Nat
  | .Png => read_png_dimensions data
  | .Jpeg => read_jpeg_dimensions data
  | .Gif => read_gif_dimensions data
  | .Bmp => read_bmp_dimensions data

/-- Models `(px as f64 * 25.4 / 96.0).round() as u32` as exact rational
arithmetic: `round(px * 127 / 480)` with round half away from zero, which for
nonnegative arguments is `(px * 254 + 480) / 960` in integer division. -/
def px_to_mm (px : Nat) : Nat := (px * 254 + 480) / 960

/-- Models `HwpxImage::read_dimensions_mm` (writer.rs lines 220-236): both
axes must parse and be positive, otherwise both results are `none`. -/
def read_dimensions_mm (data : List Nat) (format : HwpxImageFormat) :
    Option Nat × Option Nat :=
  match read_dimensions_px data format with
  | (some w, some h) =>
    if 0 < w ∧ 0 < h then (some (max (px_to_mm w) 1), some (max (px_to_mm h) 1))
    else (none, none)
  | _ => (none, none)

/-- Models `HwpxImage` from src/hwpx/writer.rs. -/
structure HwpxImage where
  data : List Nat
  format : HwpxImageFormat
  width_mm : Option Nat
  height_mm : Option Nat
deriving DecidableEq

/-- Models `HwpxImage::from_bytes` (writer.rs lines 202-211). -/
def HwpxImage.from_bytes (data : List Nat) : Option HwpxImage :=
  (HwpxImageFormat.from_bytes data).map fun format =>
    let wh := read_dimensions_mm data format
    { data := data, format := format, width_mm := wh.1, height_mm := wh.2 }

/-- Models the caller in src/jsontohwpx/image.rs lines 12-14: once the bytes
have been loaded (and converted if needed), a sniffing failure is surfaced as
a `Conversion` error via `ok_or_else`. -/
def sniffOrError (bytes : List Nat) (url : String) : Except JsonToHwpxError HwpxImage :=
  match HwpxImage.from_bytes bytes with
  | none => .error (JsonToHwpxError.Conversion ("지원하지 않는 이미지 포맷: " ++ url))
  | some img => .ok img

/-! ## Text styles and the shape table (src/hwpx/writer.rs) -/

/-- Models `HwpxTextStyle` from src/hwpx/writer.rs lines 44-53. -/
structure HwpxTextStyle where
  font_name : Option String := none
  font_size : Option Nat := none
  bold : Bool := false
  italic : Bool := false
  underline : Bool := false
  strikethrough : Bool := false
  color : Nat := 0
deriving DecidableEq

/-- Reinterpret a `u32` value as an `i32` (the Rust `as i32` cast). -/
def u32_as_i32 (v : Nat) : Int :=
  if v % 2 ^ 32 < 2 ^ 31 then ((v % 2 ^ 32 : Nat) : Int)
  else ((v % 2 ^ 32 : Nat) : Int) - 2 ^ 32

/-- Wrapping `i32` arithmetic (release-mode Rust overflow semantics). -/
def wrap_i32 (x : Int) : Int := (x + 2 ^ 31) % 2 ^ 32 - 2 ^ 31

/-- Models `CharShape` (src/model/char_shape.rs) with the fields populated by
`HwpxTextStyle::to_char_shape`. -/
structure CharShape where
  face_name_ids : List Nat
  ratios : List Nat
  char_spaces : List Nat
  relative_sizes : List Nat
  char_offsets : List Nat
  base_size : Int
  properties : Nat
  shadow_gap_x : Int
  shadow_gap_y : Int
  text_color : Nat
  underline_color : Nat
  shade_color : Nat
  shadow_color : Nat
  border_fill_id : Nat
deriving DecidableEq

/-- Models `HwpxTextStyle::to_char_shape` (writer.rs lines 97-131): pack the
four booleans into bits 0-3 of `properties`, convert the point size (default
10) to hundredths via `as i32 * 100` with 32-bit wrapping. -/
def HwpxTextStyle.to_char_shape (s : HwpxTextStyle) : CharShape :=
  let properties : Nat :=
    (if s.bold then 1 <<< 0 else 0) |||
    (if s.italic then 1 <<< 1 else 0) |||
    (if s.underline then 1 <<< 2 else 0) |||
    (if s.strikethrough then 1 <<< 3 else 0)
  let base_size : Int := wrap_i32 (u32_as_i32 (s.font_size.getD 10) * 100)
  { face_name_ids := List.replicate 7 0
    ratios := List.replicate 7 100
    char_spaces := List.replicate 7 0
    relative_sizes := List.replicate 7 100
    char_offsets := List.replicate 7 0
    base_size := base_size
    properties := properties
    shadow_gap_x := 0
    shadow_gap_y := 0
    text_color := s.color
    underline_color := s.color
    shade_color := 0xFFFFFF
    shadow_color := 0x808080
    border_fill_id := 0 }

/-- Models `CharPositionShape` (src/model/para_char_shape.rs): a `u32`
character offset paired with a `u16` character-shape id. -/
structure CharPositionShape where
  position : Nat
  char_shape_id : Nat
deriving DecidableEq

/-- Models `Paragraph` (src/model/paragraph.rs) restricted to the fields the
writer populates: optional text and optional per-position style runs. -/
structure WParagraph where
  text : Option String
  char_shapes : Option (List CharPositionShape)
deriving DecidableEq

/-- The `HwpxWriter` mutable state relevant to the builder operations: the
document-wide shape table (`doc_info.char_shapes`) and the paragraphs of the
single section that `push_paragraph` appends to. -/
structure WriterState where
  char_shapes : List CharShape
  paragraphs : List WParagraph
deriving DecidableEq

/-- Models `HwpxWriter::new`: empty shape table, no paragraphs. -/
def WriterState.new : WriterState := { char_shapes := [], paragraphs := [] }

/-- Models `HwpxWriter::add_char_shape` (writer.rs lines 738-742): the new
record's id is the table length truncated to `u16`, and the record is
appended. -/
def add_char_shape (w : WriterState) (cs : CharShape) : Nat × WriterState :=
  (w.char_shapes.length % 65536, { w with char_shapes := w.char_shapes ++ [cs] })

/-- Models `StyledText` from src/hwpx/writer.rs lines 136-139. -/
structure StyledText where
  text : String
  style : HwpxTextStyle
deriving DecidableEq

/-- Accumulator of the loop in `HwpxWriter::add_mixed_styled_paragraph`
(writer.rs lines 604-620): the writer (mutated by `add_char_shape`), the
running `u32` character position, the concatenated text and the recorded
(position, shape-id) pairs. -/
structure MixedAcc where
  st : WriterState
  position : Nat
  full_text : String
  char_positions : List CharPositionShape

/-- The `for run in runs` loop of `add_mixed_styled_paragraph`: record the
pair at the current position, then advance the position by the run's
character count (`chars().count() as u32`, with `u32` wrapping). -/
def mixedLoop (acc : MixedAcc) : List StyledText → MixedAcc
  | [] => acc
  | run :: rest =>
    let idSt := add_char_shape acc.st run.style.to_char_shape
    mixedLoop
      { st := idSt.2
        position := (acc.position + run.text.length % 2 ^ 32) % 2 ^ 32
        full_text := acc.full_text ++ run.text
        char_positions := acc.char_positions ++ [⟨acc.position, idSt.1⟩] }
      rest

/-- Models `HwpxWriter::add_mixed_styled_paragraph` (writer.rs lines
604-630). -/
def add_mixed_styled_paragraph (w : WriterState) (runs : List StyledText) :
    WriterState :=
  let acc := mixedLoop { st := w, position := 0, full_text := "", char_positions := [] } runs
  { acc.st with
    paragraphs := acc.st.paragraphs ++
      [{ text := some acc.full_text, char_shapes := some acc.char_positions }] }

/-! ## XML escaping (src/hwpx/writer.rs, `xml_escape` and `escape_xml`) -/

/-- Rust `str::replace` with a `char` pattern: every occurrence of the
character is replaced by the replacement string. -/
def replaceChar (s : List Char) (c : Char) (r : List Char) : List Char :=
  s.flatMap fun x => if x = c then r else [x]

/-- The chained single-character replacements shared by `escape_xml`
(writer.rs lines 1808-1814) and `xml_escape` (writer.rs lines 35-41),
ampersand first. -/
def escapeChain (l : List Char) : List Char :=
  replaceChar
    (replaceChar
      (replaceChar
        (replaceChar
          (replaceChar l '&' "&amp;".data)
          '<' "&lt;".data)
        '>' "&gt;".data)
      '"' "&quot;".data)
    '\'' "&apos;".data

/-- Models `escape_xml` (writer.rs lines 1808-1814). -/
def escape_xml (s : String) : String := String.mk (escapeChain s.data)

/-- Models `xml_escape` (writer.rs lines 35-41), whose body is identical to
`escape_xml`. -/
def xml_escape (s : String) : String := String.mk (escapeChain s.data)

/-- The XML entity substitution described by the spec: each of the five
special characters maps to its entity, every other character to itself. -/
def xmlEntity (c : Char) : List Char :=
  if c = '&' then "&amp;".data
  else if c = '<' then "&lt;".data
  else if c = '>' then "&gt;".data
  else if c = '"' then "&quot;".data
  else if c = '\'' then "&apos;".data
  else [c]

/-! ## Hyperlink markup (src/hwpx/writer.rs, `format_hyperlinks`) -/

/-- Models `HwpxHyperlink` from src/hwpx/writer.rs lines 388-391. -/
structure HwpxHyperlink where
  text : String
  url : String
deriving DecidableEq

/-- First character index at which `needle` occurs as a contiguous sublist of
`hay`, scanning left to right. -/
def findSub (hay needle : List Char) : Option Nat :=
  match hay with
  | [] => if needle.isEmpty then some 0 else none
  | _ :: t =>
    if needle.isPrefixOf hay then some 0
    else (findSub t needle).map (· + 1)

/-- UTF-8 byte length of a character list (`str::len` of the corresponding
prefix). -/
def utf8Len (l : List Char) : Nat := (l.map Char.utf8Size).sum

/-- Models Rust `str::find(&str)`: the BYTE offset of the first occurrence of
`needle` in `hay` (matches start on character boundaries, so the first match
in byte order is the first match in character order). -/
def rustFind (hay needle : List Char) : Option Nat :=
  (findSub hay needle).map fun i => utf8Len (hay.take i)

/-- The default-style plain run `<hp:run charPrIDRef="0"><hp:t>..</hp:t></hp:run>`
that `format_hyperlinks` emits around escaped text. -/
def plainRun (s : String) : String :=
  "<hp:run charPrIDRef=\"0\"><hp:t>" ++ escape_xml s ++ "</hp:t></hp:run>"

/-- The hyperlink run emitted by `format_hyperlinks` (writer.rs lines
1474-1485), with the url and display text escaped. -/
def linkRun (link : HwpxHyperlink) : String :=
  "<hp:run charPrIDRef=\"0\"><hp:ctrl><hp:hyperlink url=\"" ++ escape_xml link.url ++
    "\" visited=\"0\" visited_style=\"0\" new_window=\"0\"/></hp:ctrl><hp:t>" ++
    escape_xml link.text ++ "</hp:t></hp:run>"

/-- The `for link in links` loop of `format_hyperlinks` (writer.rs lines
1463-1489): `start` is the BYTE offset returned by `text.find`, while the
prefix is cut with `chars().skip(last_end).take(start - last_end)` and
`last_end` advances by `start + link.text.chars().count()`. Returns the
accumulated markup together with the final `last_end`. -/
def fhLoop (text : List Char) : List HwpxHyperlink → Nat → String × Nat
  | [], last_end => ("", last_end)
  | link :: rest, last_end =>
    match rustFind text link.text.data with
    | none => fhLoop text rest last_end
    | some start =>
      let pre : String :=
        if last_end < start then
          plainRun (String.mk ((text.drop last_end).take (start - last_end)))
        else ""
      let next := fhLoop text rest (start + link.text.data.length)
      (pre ++ linkRun link ++ next.1, next.2)

/-- Models `HwpxWriter::format_hyperlinks` (writer.rs lines 1459-1507): run
the per-link loop from `last_end = 0`, append a default-style run for the
characters past the final `last_end`, and fall back to a single plain run if
nothing was emitted. -/
def format_hyperlinks (text : String) (links : List HwpxHyperlink) : String :=
  let r := fhLoop text.data links 0
  let xml := if r.2 < text.data.length
    then r.1 ++ plainRun (String.mk (text.data.drop r.2))
    else r.1
  if xml = "" then plainRun text else xml

/-! ## Table model (src/hwpx/writer.rs, `HwpxTable`) -/

/-- Models `CellSpan` from src/hwpx/writer.rs lines 297-310. -/
structure CellSpan where
  col_span : Nat
  row_span : Nat
deriving DecidableEq

/-- Models `HwpxTable` from src/hwpx/writer.rs lines 312-322: the text grid,
fixed column widths, the origin-cell span map (a `HashMap`, modelled as an
association list where the most recent insertion comes first) and the
covered-coordinate set (a `HashSet`, modelled as a list with membership
semantics). -/
structure HwpxTable where
  rows : List (List String)
  col_widths : List Nat
  cell_spans : List ((Nat × Nat) × CellSpan)
  covered : List (Nat × Nat)
deriving DecidableEq

/-- Models `HwpxTable::from_data` (writer.rs lines 334-346). -/
def HwpxTable.from_data (data : List (List String)) : HwpxTable :=
  let cols := (data.head?.getD []).length
  { rows := data
    col_widths := List.replicate cols 8390
    cell_spans := []
    covered := [] }

/-- The coordinates covered by a span placed at `(row, col)`: every cell of
the rectangle except the origin itself (the double loop in
`HwpxTable::set_cell_span`, writer.rs lines 363-370). -/
def coveredRect (row col col_span row_span : Nat) : List (Nat × Nat) :=
  (List.range row_span).flatMap fun dr =>
    (List.range col_span).filterMap fun dc =>
      if dr = 0 ∧ dc = 0 then none else some (row + dr, col + dc)

/-- Models `HwpxTable::set_cell_span` (writer.rs lines 355-371): a 1×1 span
is ignored; otherwise the span is recorded under the origin key and every
other coordinate of the rectangle is added to the covered set. -/
def HwpxTable.set_cell_span (t : HwpxTable) (row col col_span row_span : Nat) :
    HwpxTable :=
  if col_span ≤ 1 ∧ row_span ≤ 1 then t
  else
    { t with
      cell_spans := ((row, col), ⟨col_span, row_span⟩) :: t.cell_spans
      covered := t.covered ++ coveredRect row col col_span row_span }

/-- Models `HwpxTable::is_covered` (writer.rs lines 374-376). -/
def HwpxTable.is_covered (t : HwpxTable) (row col : Nat) : Bool :=
  (row, col) ∈ t.covered

/-- Models `HwpxTable::get_cell_span` (writer.rs lines 379-385). -/
def HwpxTable.get_cell_span (t : HwpxTable) (row col : Nat) : CellSpan :=
  ((t.cell_spans.find? fun kv => kv.1 = (row, col)).map (·.2)).getD ⟨1, 1⟩

/-- Row count of the logical grid. -/
def HwpxTable.rowCount (t : HwpxTable) : Nat := t.rows.length

/-- Column count of the logical grid (the length of the first row, as in
`HwpxTable::from_data` and `format_table`). -/
def HwpxTable.colCount (t : HwpxTable) : Nat := (t.rows.head?.getD []).length

/-! ## Table grid compositor (src/jsontohwpx/table.rs, `parse_html_table`) -/

/-- Models `ParsedCell` from src/jsontohwpx/table.rs lines 13-17. The scraper
pass (table.rs lines 30-55) always constructs the spans via
`.and_then(parse).unwrap_or(1).max(1)`, so both spans are at least 1. -/
structure ParsedCell where
  text : String
  col_span : Nat
  row_span : Nat
deriving DecidableEq

/-- Span extraction for one attribute (table.rs lines 34-45):
`attr.and_then(|v| v.parse().ok()).unwrap_or(1).max(1)` with the parse result
modelled as `Option Nat`. -/
def spanOfAttr (attr : Option Nat) : Nat := max (attr.getD 1) 1

/-- One span-map record collected by the placement pass
(`Vec<(usize, usize, u32, u32)>`, table.rs line 90). -/
structure SpanRec where
  row : Nat
  col : Nat
  cs : Nat
  rs : Nat
deriving DecidableEq

/-- State of the placement pass: the text grid and occupancy bitmap (total
maps; the source's `Vec<Vec<_>>` is only ever read and written inside the
`max_row × col_count` rectangle because the spans are clipped first), plus
the collected span records. -/
structure PlaceState where
  gridF : Nat → Nat → String
  occ : Nat → Nat → Bool
  spans : List SpanRec

/-- The `while col_cursor < col_count && occupied[row][col_cursor]` cursor
advance (table.rs lines 96-98), structurally recursive on the remaining
width. -/
def findFree (occ : Nat → Nat → Bool) (row colCount : Nat) : Nat → Nat → Nat
  | cursor, 0 => cursor
  | cursor, fuel + 1 =>
    if cursor < colCount ∧ occ row cursor then findFree occ row colCount (cursor + 1) fuel
    else cursor

/-- Mark every coordinate of the `rs × cs` rectangle at `(r0, c0)` occupied
(the double `iter_mut().skip(..).take(..)` loop, table.rs lines 114-118). -/
def markRect (occ : Nat → Nat → Bool) (r0 c0 rs cs : Nat) : Nat → Nat → Bool :=
  fun r c => if r0 ≤ r ∧ r < r0 + rs ∧ c0 ≤ c ∧ c < c0 + cs then true else occ r c

/-- Write one grid cell (`grid[row_idx][col_cursor] = text`, table.rs
line 104). -/
def setGrid (g : Nat → Nat → String) (r0 c0 : Nat) (v : String) :
    Nat → Nat → String :=
  fun r c => if r = r0 ∧ c = c0 then v else g r c

/-- The inner `for cell in parsed_row` loop of the placement pass (table.rs
lines 94-121): advance the cursor past occupied columns, break (dropping the
remaining cells) if the cursor ran off the grid, otherwise place the text,
clip the spans to the grid boundary, record the span if it exceeds 1×1, mark
the covered rectangle occupied and advance the cursor past the span. -/
def placeRow (colCount maxRow rowIdx : Nat) :
    List ParsedCell → Nat → PlaceState → PlaceState
  | [], _, st => st
  | cell :: rest, cursor, st =>
    let cur := findFree st.occ rowIdx colCount cursor (colCount - cursor)
    if cur < colCount then
      let cs := min cell.col_span (colCount - cur)
      let rs := min cell.row_span (maxRow - rowIdx)
      let st' : PlaceState :=
        { gridF := setGrid st.gridF rowIdx cur cell.text
          occ := markRect st.occ rowIdx cur rs cs
          spans := if 1 < cs ∨ 1 < rs then st.spans ++ [⟨rowIdx, cur, cs, rs⟩] else st.spans }
      placeRow colCount maxRow rowIdx rest (cur + cs) st'
    else st

/-- The outer `for (row_idx, parsed_row) in parsed_rows.iter().enumerate()`
loop (table.rs lines 92-122). -/
def placeRows (colCount maxRow : Nat) (rowIdx : Nat) (st : PlaceState) :
    List (List ParsedCell) → PlaceState
  | [] => st
  | row :: rest =>
    placeRows colCount maxRow (rowIdx + 1) (placeRow colCount maxRow rowIdx row 0 st) rest

/-- Grid column count (table.rs lines 66-72): the maximum over all rows of
the sum of that row's column spans. -/
def colCountOf (rows : List (List ParsedCell)) : Nat :=
  rows.foldl (fun acc r => max acc (r.foldl (fun s c => s + c.col_span) 0)) 0

/-- The inner accumulation of `maxRowOf` for one parsed row at index `r`. -/
def maxRowStep (r : Nat) (acc : Nat) (row : List ParsedCell) : Nat :=
  row.foldl (fun a c => max a (r + c.row_span)) acc

/-- Grid row count (table.rs lines 78-86): the number of parsed rows,
extended by any cell whose row span reaches past the last parsed row. -/
def maxRowOf (rows : List (List ParsedCell)) : Nat :=
  (rows.enum.foldl (fun acc p => maxRowStep p.1 acc p.2) rows.length)

/-- Models `parse_html_table` (src/jsontohwpx/table.rs lines 20-136) starting
from the per-`tr` lists of parsed cells produced by the scraper pass (rows
with no `th`/`td` cell are dropped, table.rs lines 52-54). -/
def parse_html_table (trRows : List (List ParsedCell)) :
    Except JsonToHwpxError HwpxTable :=
  let parsedRows := trRows.filter fun r => !r.isEmpty
  if parsedRows.isEmpty then
    .error (JsonToHwpxError.Conversion "테이블에 행이 없습니다")
  else
    let colCount := colCountOf parsedRows
    let maxRow := maxRowOf parsedRows
    let st := placeRows colCount maxRow 0
      { gridF := fun _ _ => "", occ := fun _ _ => false, spans := [] } parsedRows
    let grid := (List.range maxRow).map fun r => (List.range colCount).map fun c => st.gridF r c
    let t0 := HwpxTable.from_data grid
    .ok (st.spans.foldl (fun t sp => t.set_cell_span sp.row sp.col sp.cs sp.rs) t0)

/-! ## Archive serialization layout (src/hwpx/writer.rs, `HwpxWriter::write_to`) -/

/-- The two compression modes used by `write_to` (writer.rs lines 757-760). -/
inductive Compression where
  | stored
  | deflated
deriving DecidableEq

/-- Body of an archive entry: textual XML/preview content or raw bytes. -/
inductive EntryData where
  | text (s : String)
  | bytes (b : List Nat)
deriving DecidableEq

/-- One archive entry: a file (`zip.start_file` + `write_all`) or a declared
directory (`zip.add_directory`). -/
inductive ZipEntry where
  | file (name : String) (method : Compression) (data : EntryData)
  | directory (name : String) (method : Compression)
deriving DecidableEq

/-- The strings produced by the writer's generator methods
(`generate_version_xml`, `generate_header_xml`, `generate_section_xmls`,
`generate_preview_text`, `generate_settings_xml`, `generate_container_xml`,
`generate_manifest_xml`, `generate_container_rdf`, `generate_content_hpf`),
taken as parameters: `write_to` writes them verbatim and the layout contract
does not depend on their contents. -/
structure GeneratedParts where
  version_xml : String
  header_xml : String
  section_xmls : List String
  preview_text : String
  settings_xml : String
  container_xml : String
  manifest_xml : String
  container_rdf : String
  content_hpf : String
deriving DecidableEq

/-- The per-section entries `Contents/section{idx}.xml` (writer.rs lines
785-791), numbered from zero in order. -/
def sectionEntries (xmls : List String) : List ZipEntry :=
  xmls.enum.map fun p =>
    .file ("Contents/section" ++ toString p.1 ++ ".xml") .deflated (.text p.2)

/-- The trailing image block (writer.rs lines 853-863): nothing when no image
was attached, otherwise the `BinData` directory followed by one STORED entry
per image in attachment order, named by the 1-based index and the sniffed
format's extension. The writer keeps its images as `Vec<(usize, HwpxImage)>`
(paragraph index, image); the paragraph index is ignored here exactly as the
source's `(_, image)` pattern does. -/
def binDataEntries (images : List (Nat × HwpxImage)) : List ZipEntry :=
  if images.isEmpty then []
  else
    ZipEntry.directory "BinData" Compression.deflated ::
      images.enum.map fun p =>
        .file ("BinData/image" ++ toString (p.1 + 1) ++ "." ++ p.2.2.format.extension)
          .stored (.bytes p.2.2.data)

/-- Models `HwpxWriter::write_to` (writer.rs lines 755-869) as the ordered
list of archive entries it emits: the uncompressed `mimetype` marker first,
the fixed deflated XML entries and directories, the section entries, and
finally the image block. -/
def write_to (parts : GeneratedParts) (images : List (Nat × HwpxImage)) :
    List ZipEntry :=
  [ZipEntry.file "mimetype" .stored (.text "application/hwp+zip"),
   .file "version.xml" .deflated (.text parts.version_xml),
   .directory "Contents" .deflated,
   .file "Contents/header.xml" .deflated (.text parts.header_xml)]
  ++ sectionEntries parts.section_xmls
  ++ [ZipEntry.directory "Preview" .deflated,
      .file "Preview/PrvText.txt" .deflated (.text parts.preview_text),
      .directory "Scripts" .deflated,
      .file "Scripts/headerScripts" .deflated (.bytes [0xFF, 0xFE]),
      .file "Scripts/sourceScripts" .deflated (.bytes [0xFF, 0xFE]),
      .file "settings.xml" .deflated (.text parts.settings_xml),
      .directory "META-INF" .deflated,
      .file "META-INF/container.xml" .deflated (.text parts.container_xml),
      .file "META-INF/manifest.xml" .deflated (.text parts.manifest_xml),
      .file "META-INF/container.rdf" .deflated (.text parts.container_rdf),
      .file "Contents/content.hpf" .deflated (.text parts.content_hpf)]
  ++ binDataEntries images

/-! ## Theorems -/

/-- Claim C5, counterexample: on the 6-byte buffer "GIF87a" the GIF prefix
test matches, yet `from_bytes` returns `none` because of the 8-byte length
guard, so "returns None exactly when no test matches" fails as stated. -/
theorem from_bytes_short_gif_counterexample :
    ¬ (HwpxImageFormat.from_bytes [0x47, 0x49, 0x46, 0x38, 0x37, 0x61] = none ↔
        ¬ (pngTest [0x47, 0x49, 0x46, 0x38, 0x37, 0x61] ∨
           jpegTest [0x47, 0x49, 0x46, 0x38, 0x37, 0x61] ∨
           gifTest [0x47, 0x49, 0x46, 0x38, 0x37, 0x61] ∨
           bmpTest [0x47, 0x49, 0x46, 0x38, 0x37, 0x61])) := by
  decide

/-- Claim C5, amended: buffers shorter than 8 bytes always yield `None`; for
buffers of at least 8 bytes, the magic-byte tests are applied in the fixed
priority order PNG, JPEG, GIF, BMP with the first match winning, and `None`
is returned exactly when no test matches; callers surface a sniffing failure
as a Conversion error. -/
theorem from_bytes_priority (data : List Nat) :
    (data.length < 8 → HwpxImageFormat.from_bytes data = none) ∧
    (8 ≤ data.length →
      (HwpxImageFormat.from_bytes data = none ↔
        ¬ (pngTest data ∨ jpegTest data ∨ gifTest data ∨ bmpTest data)) ∧
      (pngTest data → HwpxImageFormat.from_bytes data = some .Png) ∧
      (¬ pngTest data → jpegTest data → HwpxImageFormat.from_bytes data = some .Jpeg) ∧
      (¬ pngTest data → ¬ jpegTest data → gifTest data →
        HwpxImageFormat.from_bytes data = some .Gif) ∧
      (¬ pngTest data → ¬ jpegTest data → ¬ gifTest data → bmpTest data →
        HwpxImageFormat.from_bytes data = some .Bmp)) ∧
    (∀ url, HwpxImageFormat.from_bytes data = none →
      ∃ msg, sniffOrError data url = .error (JsonToHwpxError.Conversion msg)) := by
  refine ⟨?_, ?_, ?_⟩
  · intro h
    simp [HwpxImageFormat.from_bytes, h]
  · intro h
    have hlen : ¬ data.length < 8 := by omega
    refine ⟨?_, ?_, ?_, ?_, ?_⟩ <;>
      simp only [HwpxImageFormat.from_bytes, hlen, if_false] <;>
      by_cases h1 : pngTest data <;> by_cases h2 : jpegTest data <;>
      by_cases h3 : gifTest data <;> by_cases h4 : bmpTest data <;>
      simp [h1, h2, h3, h4]
  · intro url h
    refine ⟨"지원하지 않는 이미지 포맷: " ++ url, ?_⟩
    simp [sniffOrError, HwpxImage.from_bytes, h]

/-- Claim C5, witness: a well-formed 8-byte PNG signature is detected as PNG
and an 8-byte JPEG header as JPEG. -/
theorem from_bytes_priority_witness :
    HwpxImageFormat.from_bytes [0x89, 0x50, 0x4E, 0x47, 0x0D, 0x0A, 0x1A, 0x0A] =
      some .Png ∧
    HwpxImageFormat.from_bytes [0xFF, 0xD8, 0xFF, 0xE0, 0, 0, 0, 0] = some .Jpeg :=
  ⟨((from_bytes_priority [0x89, 0x50, 0x4E, 0x47, 0x0D, 0x0A, 0x1A, 0x0A]).2.1
      (by decide)).2.1 (by decide),
   (((from_bytes_priority [0xFF, 0xD8, 0xFF, 0xE0, 0, 0, 0, 0]).2.1
      (by decide)).2.2.1 (by decide)) (by decide)⟩

/-- Claim C6, counterexample: a recognized BMP whose header parses to pixel
width 0 and height 0 gets absent dimensions, not the claimed
`max (round (0 * 25.4 / 96)) 1 = 1` millimeter. -/
theorem read_dimensions_zero_px_counterexample :
    read_dimensions_px ([0x42, 0x4D] ++ List.replicate 24 0) HwpxImageFormat.Bmp =
      (some 0, some 0) ∧
    (HwpxImage.from_bytes ([0x42, 0x4D] ++ List.replicate 24 0)).map
      (fun i => (i.width_mm, i.height_mm)) = some (none, none) ∧
    (none : Option Nat) ≠ some (max (px_to_mm 0) 1) := by
  refine ⟨by decide, by decide, by decide⟩

/-- Claim C6, amended: for every recognized image whose header parsing yields
POSITIVE pixel width `w` and height `h`, the constructed image's physical
dimensions are `round (px * 25.4 / 96)` millimeters per axis, clamped to a
minimum of 1 mm; if either axis fails to parse, or parses to zero, both
dimensions are absent — partial dimensions are never exposed. -/
theorem read_dimensions_both_or_neither (data : List Nat) (img : HwpxImage)
    (himg : HwpxImage.from_bytes data = some img) :
    (∀ w h, read_dimensions_px data img.format = (some w, some h) → 0 < w → 0 < h →
      img.width_mm = some (max (px_to_mm w) 1) ∧
      img.height_mm = some (max (px_to_mm h) 1)) ∧
    ((img.width_mm = none ∧ img.height_mm = none) ∨
      ∃ w h, read_dimensions_px data img.format = (some w, some h) ∧ 0 < w ∧ 0 < h ∧
        img.width_mm = some (max (px_to_mm w) 1) ∧
        img.height_mm = some (max (px_to_mm h) 1)) := by
  simp only [HwpxImage.from_bytes, Option.map_eq_some'] at himg
  obtain ⟨fmt, hfmt, hmk⟩ := himg
  have hfmt_eq : img.format = fmt := by rw [← hmk]
  have hw : img.width_mm = (read_dimensions_mm data fmt).1 := by rw [← hmk]
  have hh : img.height_mm = (read_dimensions_mm data fmt).2 := by rw [← hmk]
  rw [hfmt_eq, hw, hh]
  constructor
  · intro w h hpx hwpos hhpos
    rw [read_dimensions_mm, hpx]
    simp [hwpos, hhpos]
  · rcases hpx : read_dimensions_px data fmt with ⟨_ | w, _ | h⟩
    · left
      simp [read_dimensions_mm, hpx]
    · left
      simp [read_dimensions_mm, hpx]
    · left
      simp [read_dimensions_mm, hpx]
    · by_cases hwh : 0 < w ∧ 0 < h
      · exact Or.inr ⟨w, h, rfl, hwh.1, hwh.2,
          by simp [read_dimensions_mm, hpx, hwh],
          by simp [read_dimensions_mm, hpx, hwh]⟩
      · left
        simp [read_dimensions_mm, hpx, hwh]

/-- Claim C6, witness: a 24-byte PNG header with width and height 96 pixels
yields 25 mm on both axes (96 px at 96 DPI is exactly one inch). -/
theorem read_dimensions_both_or_neither_witness :
    ({ data := [0x89, 0x50, 0x4E, 0x47, 0, 0, 0, 0, 0, 0, 0, 0, 0, 0, 0, 0,
                0, 0, 0, 96, 0, 0, 0, 96],
       format := .Png, width_mm := some 25, height_mm := some 25 } :
        HwpxImage).width_mm = some (max (px_to_mm 96) 1) ∧
    ({ data := [0x89, 0x50, 0x4E, 0x47, 0, 0, 0, 0, 0, 0, 0, 0, 0, 0, 0, 0,
                0, 0, 0, 96, 0, 0, 0, 96],
       format := .Png, width_mm := some 25, height_mm := some 25 } :
        HwpxImage).height_mm = some (max (px_to_mm 96) 1) :=
  (read_dimensions_both_or_neither
    [0x89, 0x50, 0x4E, 0x47, 0, 0, 0, 0, 0, 0, 0, 0, 0, 0, 0, 0,
     0, 0, 0, 96, 0, 0, 0, 96]
    { data := [0x89, 0x50, 0x4E, 0x47, 0, 0, 0, 0, 0, 0, 0, 0, 0, 0, 0, 0,
               0, 0, 0, 96, 0, 0, 0, 96],
      format := .Png, width_mm := some 25, height_mm := some 25 }
    (by decide)).1 96 96 (by decide) (by decide) (by decide)

/-- The bit-packing facts about `to_char_shape`, proved by exhausting the
sixteen combinations of the four toggles. -/
theorem to_char_shape_testBit (s : HwpxTextStyle) :
    (s.to_char_shape.properties.testBit 0 = s.bold) ∧
    (s.to_char_shape.properties.testBit 1 = s.italic) ∧
    (s.to_char_shape.properties.testBit 2 = s.underline) ∧
    (s.to_char_shape.properties.testBit 3 = s.strikethrough) := by
  obtain ⟨fn, fs, b, i, u, k, c⟩ := s
  cases b <;> cases i <;> cases u <;> cases k <;>
    exact ⟨by simp [HwpxTextStyle.to_char_shape] <;> decide,
           by simp [HwpxTextStyle.to_char_shape] <;> decide,
           by simp [HwpxTextStyle.to_char_shape] <;> decide,
           by simp [HwpxTextStyle.to_char_shape] <;> decide⟩

/-- Claim C7: `to_char_shape` packs bold/italic/underline/strikethrough into
bits 0-3 of the flags field and stores the point size times 100 as the base
size; `add_char_shape` returns the new record's table position as its id, and
encoding the same style twice appends two bit-identical records under two
distinct ids (no deduplication). -/
theorem to_char_shape_packing (st : WriterState) (s : HwpxTextStyle) :
    ((s.to_char_shape.properties.testBit 0 = s.bold) ∧
     (s.to_char_shape.properties.testBit 1 = s.italic) ∧
     (s.to_char_shape.properties.testBit 2 = s.underline) ∧
     (s.to_char_shape.properties.testBit 3 = s.strikethrough)) ∧
    (∀ sz, s.font_size = some sz → sz * 100 < 2 ^ 31 →
      s.to_char_shape.base_size = (sz : Int) * 100) ∧
    (st.char_shapes.length < 65536 →
      (add_char_shape st s.to_char_shape).1 = st.char_shapes.length) ∧
    (add_char_shape st s.to_char_shape).1 ≠
      (add_char_shape (add_char_shape st s.to_char_shape).2 s.to_char_shape).1 ∧
    (add_char_shape (add_char_shape st s.to_char_shape).2 s.to_char_shape).2.char_shapes =
      st.char_shapes ++ [s.to_char_shape, s.to_char_shape] := by
  refine ⟨to_char_shape_testBit s, ?_, ?_, ?_, ?_⟩
  · intro sz hsz hlt
    have hgd : s.font_size.getD 10 = sz := by rw [hsz]; rfl
    have h32 : sz % 2 ^ 32 = sz := Nat.mod_eq_of_lt (by omega)
    have hlt' : sz < 2 ^ 31 := by omega
    simp only [HwpxTextStyle.to_char_shape, hgd, u32_as_i32, wrap_i32, h32, if_pos hlt']
    omega
  · intro h
    simp [add_char_shape, Nat.mod_eq_of_lt h]
  · simp only [add_char_shape, List.length_append, List.length_cons, List.length_nil]
    omega
  · simp [add_char_shape]

/-- Claim C7, witness: encoding a bold 12pt style twice on a fresh writer
gives ids 0 and 1 with identical appended records, flags bit 0 set and base
size 1200. -/
theorem to_char_shape_packing_witness :
    (({ font_size := some 12, bold := true } : HwpxTextStyle).to_char_shape.properties.testBit 0
        = true) ∧
    ({ font_size := some 12, bold := true } : HwpxTextStyle).to_char_shape.base_size
        = (12 : Int) * 100 ∧
    (add_char_shape WriterState.new
       ({ font_size := some 12, bold := true } : HwpxTextStyle).to_char_shape).1 = 0 :=
  ⟨(to_char_shape_packing WriterState.new { font_size := some 12, bold := true }).1.1,
   (to_char_shape_packing WriterState.new { font_size := some 12, bold := true }).2.1 12
     rfl (by decide),
   (to_char_shape_packing WriterState.new { font_size := some 12, bold := true }).2.2.1
     (by decide)⟩

/-- The offset sequence actually produced by `mixedLoop` starting at `p`:
each run contributes its recorded offset, then the position advances with
`u32` wrapping. -/
def offsetsFrom (p : Nat) : List Nat → List Nat
  | [] => []
  | n :: ns => p :: offsetsFrom ((p + n % 2 ^ 32) % 2 ^ 32) ns

/-- Cumulative character offsets without wrapping: the spec's "total
character count of the concatenated text of all preceding runs". -/
def prefixSums (p : Nat) : List Nat → List Nat
  | [] => []
  | n :: ns => p :: prefixSums (p + n) ns

theorem mixedLoop_st_paragraphs (runs : List StyledText) (acc : MixedAcc) :
    (mixedLoop acc runs).st.paragraphs = acc.st.paragraphs := by
  induction runs generalizing acc with
  | nil => rfl
  | cons run rest ih => simp [mixedLoop, ih, add_char_shape]

theorem mixedLoop_positions (runs : List StyledText) (acc : MixedAcc) :
    (mixedLoop acc runs).char_positions.map (·.position) =
      acc.char_positions.map (·.position) ++
        offsetsFrom acc.position (runs.map (·.text.length)) := by
  induction runs generalizing acc with
  | nil => simp [mixedLoop, offsetsFrom]
  | cons run rest ih =>
    simp only [mixedLoop, List.map_cons, offsetsFrom, ih, List.map_append, List.map_cons,
      List.map_nil, List.append_assoc, List.cons_append, List.nil_append]

theorem mixedLoop_full_text (runs : List StyledText) (acc : MixedAcc) :
    (mixedLoop acc runs).full_text = (runs.map (·.text)).foldl (· ++ ·) acc.full_text := by
  induction runs generalizing acc with
  | nil => rfl
  | cons run rest ih => simp [mixedLoop, ih]

theorem offsetsFrom_no_wrap (ns : List Nat) (p : Nat) (h : p + ns.sum < 2 ^ 32) :
    offsetsFrom p ns = prefixSums p ns := by
  induction ns generalizing p with
  | nil => rfl
  | cons n rest ih =>
    simp only [List.sum_cons] at h
    have hn : n % 2 ^ 32 = n := Nat.mod_eq_of_lt (by omega)
    have hpn : (p + n) % 2 ^ 32 = p + n := Nat.mod_eq_of_lt (by omega)
    simp only [offsetsFrom, prefixSums, hn, hpn]
    exact congrArg _ (ih (p + n) (by omega))

theorem prefixSums_mem_le (ns : List Nat) (p b : Nat) (h : b ∈ prefixSums p ns) :
    p ≤ b := by
  induction ns generalizing p with
  | nil => simp [prefixSums] at h
  | cons n rest ih =>
    simp only [prefixSums, List.mem_cons] at h
    rcases h with h | h
    · omega
    · have := ih (p + n) h
      omega

theorem prefixSums_pairwise_le (ns : List Nat) (p : Nat) :
    List.Pairwise (· ≤ ·) (prefixSums p ns) := by
  induction ns generalizing p with
  | nil => exact List.Pairwise.nil
  | cons n rest ih =>
    refine List.Pairwise.cons (fun b hb => ?_) (ih (p + n))
    have := prefixSums_mem_le rest (p + n) b hb
    omega

theorem prefixSums_pairwise_lt (ns : List Nat) (p : Nat) (h : ∀ n ∈ ns, 1 ≤ n) :
    List.Pairwise (· < ·) (prefixSums p ns) := by
  induction ns generalizing p with
  | nil => exact List.Pairwise.nil
  | cons n rest ih =>
    refine List.Pairwise.cons (fun b hb => ?_) (ih (p + n) (fun m hm => h m (by simp [hm])))
    have h1 : 1 ≤ n := h n (by simp)
    have := prefixSums_mem_le rest (p + n) b hb
    omega

theorem prefixSums_getD (ns : List Nat) (p i : Nat) (h : i < ns.length) :
    (prefixSums p ns).getD i 0 = p + (ns.take i).sum := by
  induction ns generalizing p i with
  | nil => simp at h
  | cons n rest ih =>
    cases i with
    | zero => simp [prefixSums]
    | succ j =>
      simp only [prefixSums, List.getD_cons_succ, List.take_succ_cons, List.sum_cons]
      rw [ih (p + n) j (by simpa using h)]
      omega

/-- Claim C8, counterexample: a run list whose first run has empty text
records two EQUAL offsets (0 and 0), so the offsets are not strictly
increasing as claimed. -/
theorem mixed_offsets_counterexample :
    ((add_mixed_styled_paragraph WriterState.new
        [⟨"", {}⟩, ⟨"a", {}⟩]).paragraphs.head?.map
          fun p => p.char_shapes.map (·.map (·.position))) = some (some [0, 0]) ∧
    ¬ List.Pairwise (· < ·) [0, 0] := by
  refine ⟨by decide, by decide⟩

/-- Claim C8, amended: as long as the paragraph's total character count stays
below `2^32` (the `u32` position range), each run's recorded offset equals
the total character count — characters, not bytes — of the concatenated text
of all preceding runs, so the offsets are non-decreasing; they are strictly
increasing provided every run's text is nonempty. -/
theorem mixed_offsets_cumulative (w : WriterState) (runs : List StyledText)
    (hsum : (runs.map (·.text.length)).sum < 2 ^ 32) :
    ∃ cps : List CharPositionShape,
      (add_mixed_styled_paragraph w runs).paragraphs.getLast? =
        some ⟨some ((runs.map (·.text)).foldl (· ++ ·) ""), some cps⟩ ∧
      (∀ i, i < runs.length →
        (cps.map (·.position)).getD i 0 = ((runs.take i).map (·.text.length)).sum) ∧
      List.Pairwise (· ≤ ·) (cps.map (·.position)) ∧
      ((∀ r ∈ runs, r.text ≠ "") → List.Pairwise (· < ·) (cps.map (·.position))) := by
  refine ⟨(mixedLoop ⟨w, 0, "", []⟩ runs).char_positions, ?_, ?_, ?_, ?_⟩
  · simp only [add_mixed_styled_paragraph, List.getLast?_concat]
    rw [mixedLoop_full_text]
  · intro i hi
    rw [mixedLoop_positions, offsetsFrom_no_wrap _ _ (by simpa using hsum)]
    simp only [List.map_nil, List.nil_append]
    rw [prefixSums_getD _ _ _ (by simpa using hi)]
    simp [List.map_take]
  · rw [mixedLoop_positions, offsetsFrom_no_wrap _ _ (by simpa using hsum)]
    simpa using prefixSums_pairwise_le (runs.map (·.text.length)) 0
  · intro hne
    rw [mixedLoop_positions, offsetsFrom_no_wrap _ _ (by simpa using hsum)]
    simp only [List.map_nil, List.nil_append]
    refine prefixSums_pairwise_lt _ _ ?_
    intro n hn
    simp only [List.mem_map] at hn
    obtain ⟨r, hr, hrn⟩ := hn
    have hne' := hne r hr
    have : r.text.length ≠ 0 := by
      intro h0
      have hd : r.text.data = [] := List.eq_nil_of_length_eq_zero h0
      exact hne' (String.ext (by rw [hd]))
    omega

/-- The concrete run list used to witness the amended claim C8: two nonempty
runs, the first of which is two CHARACTERS but six UTF-8 bytes long. -/
def mixedRunsW : List StyledText := [⟨"한글", {}⟩, ⟨"ab", {}⟩]

/-- Claim C8, witness: on `mixedRunsW` the second run's offset is 2 (the
first run's character count, not its byte count). -/
theorem mixed_offsets_cumulative_witness :
    ∃ cps : List CharPositionShape,
      (add_mixed_styled_paragraph WriterState.new mixedRunsW).paragraphs.getLast? =
        some ⟨some ((mixedRunsW.map (·.text)).foldl (· ++ ·) ""), some cps⟩ ∧
      (∀ i, i < mixedRunsW.length →
        (cps.map (·.position)).getD i 0 = ((mixedRunsW.take i).map (·.text.length)).sum) ∧
      List.Pairwise (· ≤ ·) (cps.map (·.position)) ∧
      ((∀ r ∈ mixedRunsW, r.text ≠ "") →
        List.Pairwise (· < ·) (cps.map (·.position))) :=
  mixed_offsets_cumulative WriterState.new mixedRunsW (by decide)

/-- Claim C3: `parse_html_table` returns a Conversion-category error exactly
when no parsed row contains a cell (no `tr`, or every `tr` cell-less), and
returns a table (never the error, never a panic — the embedding is a total
function) whenever at least one parsed row contains a cell. -/
theorem parse_html_table_no_rows (trRows : List (List ParsedCell)) :
    ((∃ msg, parse_html_table trRows = .error (JsonToHwpxError.Conversion msg)) ↔
      ∀ row ∈ trRows, row = []) ∧
    ((∃ row ∈ trRows, row ≠ []) → ∃ t, parse_html_table trRows = .ok t) := by
  have hfilter : (trRows.filter fun r => !r.isEmpty).isEmpty = true ↔
      ∀ row ∈ trRows, row = [] := by
    rw [List.isEmpty_iff, List.filter_eq_nil_iff]
    constructor
    · intro h row hrow
      have := h row hrow
      simpa [List.isEmpty_iff] using this
    · intro h row hrow
      simpa [List.isEmpty_iff] using h row hrow
  constructor
  · constructor
    · intro ⟨msg, hmsg⟩
      rw [← hfilter]
      by_contra hne
      simp only [parse_html_table] at hmsg
      rw [if_neg hne] at hmsg
      exact Except.noConfusion hmsg
    · intro h
      refine ⟨"테이블에 행이 없습니다", ?_⟩
      simp only [parse_html_table]
      rw [if_pos (hfilter.mpr h)]
  · intro ⟨row, hrow, hne⟩
    have : ¬ (trRows.filter fun r => !r.isEmpty).isEmpty = true := by
      rw [hfilter]
      intro h
      exact hne (h row hrow)
    simp only [parse_html_table, if_neg this]
    exact ⟨_, rfl⟩

/-- Claim C3, witness: a single row with one 1×1 cell composes successfully;
a markup whose only row has no cells fails with the Conversion error. -/
theorem parse_html_table_no_rows_witness :
    (∃ t, parse_html_table [[⟨"A", 1, 1⟩]] = .ok t) ∧
    (∃ msg, parse_html_table [[]] = .error (JsonToHwpxError.Conversion msg)) :=
  ⟨(parse_html_table_no_rows [[⟨"A", 1, 1⟩]]).2 ⟨[⟨"A", 1, 1⟩], by decide, by decide⟩,
   (parse_html_table_no_rows [[]]).1.mpr (by decide)⟩

/-- Claim C2: the content-type marker `mimetype` with body
`application/hwp+zip` is the physical first entry and is stored without
compression; the `BinData` directory is present exactly when at least one
image was attached; and with images attached the archive is the fixed image-
free layout followed by the `BinData` directory and one STORED entry per
image in attachment order, named by 1-based index and sniffed extension. -/
theorem write_to_layout (parts : GeneratedParts) (images : List (Nat × HwpxImage)) :
    (write_to parts images).head? =
      some (ZipEntry.file "mimetype" .stored (.text "application/hwp+zip")) ∧
    (ZipEntry.directory "BinData" Compression.deflated ∈ write_to parts images ↔
      images ≠ []) ∧
    (images ≠ [] →
      write_to parts images = write_to parts [] ++
        ZipEntry.directory "BinData" Compression.deflated ::
          images.enum.map (fun p =>
            ZipEntry.file
              ("BinData/image" ++ toString (p.1 + 1) ++ "." ++ p.2.2.format.extension)
              Compression.stored (EntryData.bytes p.2.2.data))) := by
  refine ⟨rfl, ?_, ?_⟩
  · constructor
    · intro hmem
      intro hnil
      subst hnil
      simp [write_to, binDataEntries, sectionEntries] at hmem
    · intro hne
      have : ¬ images.isEmpty := by
        simpa [List.isEmpty_iff] using hne
      simp [write_to, binDataEntries, this]
  · intro hne
    have : ¬ images.isEmpty := by
      simpa [List.isEmpty_iff] using hne
    simp [write_to, binDataEntries, this]

/-- Claim C2, witness: with one attached PNG image, the archive is the fixed
layout plus the `BinData` directory and `BinData/image1.png` stored verbatim;
the first entry is the stored mimetype marker. -/
theorem write_to_layout_witness :
    (write_to ⟨"", "", [], "", "", "", "", "", ""⟩
        [(0, ⟨[1, 2, 3], .Png, none, none⟩)]).head? =
      some (ZipEntry.file "mimetype" .stored (.text "application/hwp+zip")) ∧
    write_to ⟨"", "", [], "", "", "", "", "", ""⟩ [(0, ⟨[1, 2, 3], .Png, none, none⟩)] =
      write_to ⟨"", "", [], "", "", "", "", "", ""⟩ [] ++
        ZipEntry.directory "BinData" Compression.deflated ::
          ([(0, (⟨[1, 2, 3], .Png, none, none⟩ : HwpxImage))].enum.map (fun p =>
            ZipEntry.file
              ("BinData/image" ++ toString (p.1 + 1) ++ "." ++ p.2.2.format.extension)
              Compression.stored (EntryData.bytes p.2.2.data))) :=
  ⟨(write_to_layout ⟨"", "", [], "", "", "", "", "", ""⟩
      [(0, ⟨[1, 2, 3], .Png, none, none⟩)]).1,
   (write_to_layout ⟨"", "", [], "", "", "", "", "", ""⟩
      [(0, ⟨[1, 2, 3], .Png, none, none⟩)]).2.2 (by decide)⟩

theorem replaceChar_append (a b : List Char) (c : Char) (r : List Char) :
    replaceChar (a ++ b) c r = replaceChar a c r ++ replaceChar b c r := by
  simp [replaceChar]

theorem escapeChain_append (a b : List Char) :
    escapeChain (a ++ b) = escapeChain a ++ escapeChain b := by
  simp [escapeChain, replaceChar_append]

theorem escapeChain_single (x : Char) : escapeChain [x] = xmlEntity x := by
  by_cases h1 : x = '&'
  · subst h1; decide
  by_cases h2 : x = '<'
  · subst h2; decide
  by_cases h3 : x = '>'
  · subst h3; decide
  by_cases h4 : x = '"'
  · subst h4; decide
  by_cases h5 : x = '\''
  · subst h5; decide
  simp only [escapeChain, replaceChar, List.flatMap_cons, List.flatMap_nil,
    if_neg h1, if_neg h2, if_neg h3, if_neg h4, if_neg h5, List.append_nil,
    xmlEntity]

theorem escapeChain_flatMap (l : List Char) : escapeChain l = l.flatMap xmlEntity := by
  induction l with
  | nil => rfl
  | cons x t ih =>
    have hx : x :: t = [x] ++ t := rfl
    rw [hx, escapeChain_append, escapeChain_single, ih]
    simp

/-- Claim C10: `escape_xml` (and the identical `xml_escape`) replaces each
occurrence of `&`, `<`, `>`, `"`, `'` in its input by the corresponding XML
entity and leaves every other character unchanged, so its output — the only
form in which user-supplied text, table cell text, hyperlink text/urls,
header/footer text and metadata reach the generated XML — never contains a
raw `<`, `>`, `"` or `'` that could open or close an XML element or
attribute. -/
theorem escape_xml_entities (s : String) :
    (escape_xml s).data = s.data.flatMap xmlEntity ∧
    xml_escape s = escape_xml s ∧
    ∀ c ∈ (escape_xml s).data, c ≠ '<' ∧ c ≠ '>' ∧ c ≠ '"' ∧ c ≠ '\'' := by
  refine ⟨escapeChain_flatMap s.data, rfl, ?_⟩
  intro c hc
  rw [show (escape_xml s).data = escapeChain s.data from rfl,
    escapeChain_flatMap] at hc
  simp only [List.mem_flatMap] at hc
  obtain ⟨x, _, hcx⟩ := hc
  by_cases h1 : x = '&'
  · subst h1
    have hcx' : c = '&' ∨ c = 'a' ∨ c = 'm' ∨ c = 'p' ∨ c = ';' := by
      simpa [xmlEntity] using hcx
    rcases hcx' with rfl | rfl | rfl | rfl | rfl <;> decide
  by_cases h2 : x = '<'
  · subst h2
    have hcx' : c = '&' ∨ c = 'l' ∨ c = 't' ∨ c = ';' := by
      simpa [xmlEntity] using hcx
    rcases hcx' with rfl | rfl | rfl | rfl <;> decide
  by_cases h3 : x = '>'
  · subst h3
    have hcx' : c = '&' ∨ c = 'g' ∨ c = 't' ∨ c = ';' := by
      simpa [xmlEntity] using hcx
    rcases hcx' with rfl | rfl | rfl | rfl <;> decide
  by_cases h4 : x = '"'
  · subst h4
    have hcx' : c = '&' ∨ c = 'q' ∨ c = 'u' ∨ c = 'o' ∨ c = 't' ∨ c = ';' := by
      simpa [xmlEntity] using hcx
    rcases hcx' with rfl | rfl | rfl | rfl | rfl | rfl <;> decide
  by_cases h5 : x = '\''
  · subst h5
    have hcx' : c = '&' ∨ c = 'a' ∨ c = 'p' ∨ c = 'o' ∨ c = 's' ∨ c = ';' := by
      simpa [xmlEntity] using hcx
    rcases hcx' with rfl | rfl | rfl | rfl | rfl | rfl <;> decide
  simp only [xmlEntity, if_neg h1, if_neg h2, if_neg h3, if_neg h4, if_neg h5,
    List.mem_singleton] at hcx
  subst hcx
  exact ⟨h2, h3, h4, h5⟩

/-- Claim C10, witness: a string containing all five special characters is
expanded entity-by-entity and its escaped form contains no raw `<`. -/
theorem escape_xml_entities_witness :
    (escape_xml "a<b&c'd\"e>f").data = "a<b&c'd\"e>f".data.flatMap xmlEntity ∧
    xml_escape "a<b&c'd\"e>f" = escape_xml "a<b&c'd\"e>f" ∧
    ('a' ≠ '<' ∧ 'a' ≠ '>' ∧ 'a' ≠ '"' ∧ 'a' ≠ '\'') :=
  ⟨(escape_xml_entities "a<b&c'd\"e>f").1,
   (escape_xml_entities "a<b&c'd\"e>f").2.1,
   (escape_xml_entities "a<b&c'd\"e>f").2.2 'a' (by decide)⟩

set_option maxRecDepth 4000 in
/-- Claim C9 (code bug): `format_hyperlinks` locates the display text with
`str::find`, which returns a BYTE offset, but slices the preceding text with
`chars().skip(..)`, a CHARACTER offset. On the two-character paragraph "한a"
with link "a", the first occurrence is at byte 3, so the emitted prefix run
contains the ENTIRE paragraph "한a" (display text included) instead of the
text before the match, "한". -/
theorem format_hyperlinks_multibyte_bug :
    rustFind "한a".data "a".data = some 3 ∧
    format_hyperlinks "한a" [⟨"a", "http://x"⟩] =
      plainRun "한a" ++ linkRun ⟨"a", "http://x"⟩ ∧
    plainRun "한a" ≠ plainRun "한" := by
  refine ⟨by decide, by decide, by decide⟩

/-! ## Placement-pass invariants (claims C1 and C4) -/

/-- Executable origin test: the coordinate is a key of the span map. -/
def HwpxTable.isOrigin (t : HwpxTable) (r c : Nat) : Bool :=
  t.cell_spans.any fun kv => kv.1 = (r, c)

/-- A span record is well-placed: clipped inside the grid, both spans at
least 1, and exceeding 1×1 (the recording guard). -/
def spanOk (colCount maxRow : Nat) (e : SpanRec) : Prop :=
  e.row + e.rs ≤ maxRow ∧ e.col + e.cs ≤ colCount ∧
    1 ≤ e.cs ∧ 1 ≤ e.rs ∧ (1 < e.cs ∨ 1 < e.rs)

/-- `(r, c)` lies inside the rectangle of span record `e`. -/
def inRect (e : SpanRec) (r c : Nat) : Prop :=
  e.row ≤ r ∧ r < e.row + e.rs ∧ e.col ≤ c ∧ c < e.col + e.cs

/-- Invariant of the placement pass while the cursor sits at
`(rowIdx, cursor)`: every recorded span is well-placed, its whole rectangle
is marked occupied, no origin lies strictly inside another span's rectangle,
and every origin lies before the cursor position. -/
structure PlaceInv (colCount maxRow : Nat) (st : PlaceState) (rowIdx cursor : Nat) :
    Prop where
  ok : ∀ e ∈ st.spans, spanOk colCount maxRow e
  occ_rect : ∀ e ∈ st.spans, ∀ r c, inRect e r c → st.occ r c = true
  no_cover : ∀ e1 ∈ st.spans, ∀ e2 ∈ st.spans, inRect e2 e1.row e1.col →
    e1.row = e2.row ∧ e1.col = e2.col
  frontier : ∀ e ∈ st.spans, e.row < rowIdx ∨ (e.row = rowIdx ∧ e.col < cursor)

theorem findFree_ge (occ : Nat → Nat → Bool) (row colCount : Nat) :
    ∀ fuel cursor, cursor ≤ findFree occ row colCount cursor fuel := by
  intro fuel
  induction fuel with
  | zero => intro cursor; exact Nat.le_refl _
  | succ n ih =>
    intro cursor
    simp only [findFree]
    split
    · exact Nat.le_trans (by omega) (ih (cursor + 1))
    · exact Nat.le_refl _

theorem findFree_not_occ (occ : Nat → Nat → Bool) (row colCount : Nat) :
    ∀ fuel cursor, colCount ≤ cursor + fuel →
      findFree occ row colCount cursor fuel < colCount →
      occ row (findFree occ row colCount cursor fuel) = false := by
  intro fuel
  induction fuel with
  | zero =>
    intro cursor hf hlt
    simp only [findFree] at hlt
    omega
  | succ n ih =>
    intro cursor hf hlt
    by_cases h1 : cursor < colCount
    · by_cases h2 : occ row cursor = true
      · have hcond : cursor < colCount ∧ occ row cursor = true := ⟨h1, h2⟩
        simp only [findFree, if_pos hcond] at hlt ⊢
        exact ih (cursor + 1) (by omega) hlt
      · have hcond : ¬ (cursor < colCount ∧ occ row cursor = true) := fun hc => h2 hc.2
        simp only [findFree, if_neg hcond] at hlt ⊢
        simpa using h2
    · have hcond : ¬ (cursor < colCount ∧ occ row cursor = true) := fun hc => h1 hc.1
      simp only [findFree, if_neg hcond] at hlt
      omega

theorem markRect_mono (occ : Nat → Nat → Bool) (r0 c0 rs cs r c : Nat)
    (h : occ r c = true) : markRect occ r0 c0 rs cs r c = true := by
  unfold markRect
  split <;> simp [h]

theorem markRect_hit (occ : Nat → Nat → Bool) (r0 c0 rs cs r c : Nat)
    (h : r0 ≤ r ∧ r < r0 + rs ∧ c0 ≤ c ∧ c < c0 + cs) :
    markRect occ r0 c0 rs cs r c = true := by
  unfold markRect
  rw [if_pos h]

theorem placeRow_inv (colCount maxRow rowIdx : Nat) (hrow : rowIdx < maxRow) :
    ∀ (cells : List ParsedCell) (cursor : Nat) (st : PlaceState),
      (∀ cell ∈ cells, 1 ≤ cell.col_span ∧ 1 ≤ cell.row_span) →
      PlaceInv colCount maxRow st rowIdx cursor →
      ∃ cur', PlaceInv colCount maxRow
        (placeRow colCount maxRow rowIdx cells cursor st) rowIdx cur' := by
  intro cells
  induction cells with
  | nil => intro cursor st _ inv; exact ⟨cursor, inv⟩
  | cons cell rest ih =>
    intro cursor st hwf inv
    simp only [placeRow]
    by_cases hcur : findFree st.occ rowIdx colCount cursor (colCount - cursor) < colCount
    · rw [if_pos hcur]
      set cur := findFree st.occ rowIdx colCount cursor (colCount - cursor) with hcur_def
      set cs := min cell.col_span (colCount - cur) with hcs_def
      set rs := min cell.row_span (maxRow - rowIdx) with hrs_def
      have hcursor_le : cursor ≤ cur := findFree_ge st.occ rowIdx colCount _ cursor
      have hfree : st.occ rowIdx cur = false :=
        findFree_not_occ st.occ rowIdx colCount _ cursor (by omega) hcur
      have hc1 : 1 ≤ cell.col_span := (hwf cell (by simp)).1
      have hr1 : 1 ≤ cell.row_span := (hwf cell (by simp)).2
      have hcs1 : 1 ≤ cs := by omega
      have hrs1 : 1 ≤ rs := by omega
      have hcsle : cur + cs ≤ colCount := by omega
      have hrsle : rowIdx + rs ≤ maxRow := by omega
      refine ih (cur + cs) _ (fun c hc => hwf c (by simp [hc])) ?_
      constructor
      · intro e he
        by_cases hguard : 1 < cs ∨ 1 < rs
        · rw [if_pos hguard] at he
          rcases List.mem_append.mp he with hold | hnew
          · exact inv.ok e hold
          · have : e = ⟨rowIdx, cur, cs, rs⟩ := by simpa using hnew
            subst this
            exact ⟨hrsle, hcsle, hcs1, hrs1, hguard⟩
        · rw [if_neg hguard] at he
          exact inv.ok e he
      · intro e he r c hrect
        by_cases hguard : 1 < cs ∨ 1 < rs
        · rw [if_pos hguard] at he
          rcases List.mem_append.mp he with hold | hnew
          · exact markRect_mono _ _ _ _ _ _ _ (inv.occ_rect e hold r c hrect)
          · have : e = ⟨rowIdx, cur, cs, rs⟩ := by simpa using hnew
            subst this
            exact markRect_hit _ _ _ _ _ _ _ hrect
        · rw [if_neg hguard] at he
          exact markRect_mono _ _ _ _ _ _ _ (inv.occ_rect e he r c hrect)
      · intro e1 he1 e2 he2 hrect
        by_cases hguard : 1 < cs ∨ 1 < rs
        · rw [if_pos hguard] at he1 he2
          rcases List.mem_append.mp he1 with h1old | h1new
          · rcases List.mem_append.mp he2 with h2old | h2new
            · exact inv.no_cover e1 h1old e2 h2old hrect
            · have h2 : e2 = ⟨rowIdx, cur, cs, rs⟩ := by simpa using h2new
              subst h2
              rcases inv.frontier e1 h1old with hfr | ⟨hfr, hfc⟩
              · exact absurd hrect.1 (by simp; omega)
              · exact absurd hrect.2.2.1 (by simp; omega)
          · have h1 : e1 = ⟨rowIdx, cur, cs, rs⟩ := by simpa using h1new
            subst h1
            rcases List.mem_append.mp he2 with h2old | h2new
            · have := inv.occ_rect e2 h2old rowIdx cur hrect
              rw [hfree] at this
              exact absurd this (by simp)
            · have h2 : e2 = ⟨rowIdx, cur, cs, rs⟩ := by simpa using h2new
              subst h2
              exact ⟨rfl, rfl⟩
        · rw [if_neg hguard] at he1 he2
          exact inv.no_cover e1 he1 e2 he2 hrect
      · intro e he
        by_cases hguard : 1 < cs ∨ 1 < rs
        · rw [if_pos hguard] at he
          rcases List.mem_append.mp he with hold | hnew
          · rcases inv.frontier e hold with hfr | ⟨hfr, hfc⟩
            · exact Or.inl hfr
            · exact Or.inr ⟨hfr, by omega⟩
          · have : e = ⟨rowIdx, cur, cs, rs⟩ := by simpa using hnew
            subst this
            exact Or.inr ⟨rfl, by simp; omega⟩
        · rw [if_neg hguard] at he
          rcases inv.frontier e he with hfr | ⟨hfr, hfc⟩
          · exact Or.inl hfr
          · exact Or.inr ⟨hfr, by omega⟩
    · rw [if_neg hcur]
      exact ⟨cursor, inv⟩

theorem PlaceInv.next_row {colCount maxRow : Nat} {st : PlaceState}
    {rowIdx cursor : Nat} (h : PlaceInv colCount maxRow st rowIdx cursor) :
    PlaceInv colCount maxRow st (rowIdx + 1) 0 where
  ok := h.ok
  occ_rect := h.occ_rect
  no_cover := h.no_cover
  frontier := fun e he => Or.inl (by rcases h.frontier e he with h' | ⟨h', _⟩ <;> omega)

theorem placeRows_inv (colCount maxRow : Nat) :
    ∀ (rows : List (List ParsedCell)) (rowIdx : Nat) (st : PlaceState),
      (∀ row ∈ rows, ∀ cell ∈ row, 1 ≤ cell.col_span ∧ 1 ≤ cell.row_span) →
      rowIdx + rows.length ≤ maxRow →
      PlaceInv colCount maxRow st rowIdx 0 →
      ∃ cur', PlaceInv colCount maxRow
        (placeRows colCount maxRow rowIdx st rows) (rowIdx + rows.length) cur' := by
  intro rows
  induction rows with
  | nil =>
    intro rowIdx st _ _ inv
    refine ⟨0, ?_⟩
    simpa [placeRows] using inv
  | cons row rest ih =>
    intro rowIdx st hwf hlen inv
    simp only [placeRows]
    obtain ⟨cur', inv'⟩ := placeRow_inv colCount maxRow rowIdx
      (by simp at hlen; omega) row 0 st (hwf row (by simp)) inv
    obtain ⟨c2, invf⟩ := ih (rowIdx + 1) _
      (fun r hr => hwf r (by simp [hr])) (by simp at hlen ⊢; omega) inv'.next_row
    refine ⟨c2, ?_⟩
    have harith : rowIdx + (row :: rest).length = rowIdx + 1 + rest.length := by
      simp
      omega
    rw [harith]
    exact invf

theorem foldl_max_ge (f : ParsedCell → Nat) (l : List ParsedCell) :
    ∀ a : Nat, a ≤ l.foldl (fun a c => max a (f c)) a := by
  induction l with
  | nil => intro a; exact Nat.le_refl _
  | cons x xs ihx =>
    intro a
    simp only [List.foldl_cons]
    exact Nat.le_trans (Nat.le_max_left a (f x)) (ihx _)

theorem maxRowStep_ge (r acc : Nat) (row : List ParsedCell) :
    acc ≤ maxRowStep r acc row :=
  foldl_max_ge (fun c => r + c.row_span) row acc

theorem length_le_maxRowOf (rows : List (List ParsedCell)) :
    rows.length ≤ maxRowOf rows := by
  unfold maxRowOf
  have : ∀ (l : List (Nat × List ParsedCell)) (acc : Nat),
      acc ≤ l.foldl (fun acc p => maxRowStep p.1 acc p.2) acc := by
    intro l
    induction l with
    | nil => intro acc; exact Nat.le_refl _
    | cons p ps ihp =>
      intro acc
      simp only [List.foldl_cons]
      exact Nat.le_trans (maxRowStep_ge p.1 acc p.2) (ihp _)
  exact this rows.enum rows.length

theorem mem_coveredRect (row col cs rs : Nat) (p : Nat × Nat) :
    p ∈ coveredRect row col cs rs ↔
      (row ≤ p.1 ∧ p.1 < row + rs ∧ col ≤ p.2 ∧ p.2 < col + cs ∧
        ¬ (p.1 = row ∧ p.2 = col)) := by
  simp only [coveredRect, List.mem_flatMap, List.mem_filterMap, List.mem_range]
  constructor
  · rintro ⟨dr, hdr, dc, hdc, hif⟩
    by_cases h00 : dr = 0 ∧ dc = 0
    · rw [if_pos h00] at hif
      exact absurd hif (by simp)
    · rw [if_neg h00] at hif
      have hp : p = (row + dr, col + dc) := by simpa using hif.symm
      subst hp
      simp only
      omega
  · rintro ⟨h1, h2, h3, h4, h5⟩
    refine ⟨p.1 - row, by omega, p.2 - col, by omega, ?_⟩
    rw [if_neg (by omega)]
    have : (row + (p.1 - row), col + (p.2 - col)) = p := by
      obtain ⟨a, b⟩ := p
      simp only [Prod.mk.injEq]
      omega
    rw [this]

theorem foldl_set_cell_span (S : List SpanRec) :
    ∀ t0 : HwpxTable, (∀ e ∈ S, 1 < e.cs ∨ 1 < e.rs) →
      (S.foldl (fun t sp => t.set_cell_span sp.row sp.col sp.cs sp.rs) t0).rows =
        t0.rows ∧
      (∀ kv, kv ∈ (S.foldl (fun t sp => t.set_cell_span sp.row sp.col sp.cs sp.rs)
          t0).cell_spans ↔
        kv ∈ t0.cell_spans ∨
          ∃ e ∈ S, kv = ((e.row, e.col), CellSpan.mk e.cs e.rs)) ∧
      (∀ p, p ∈ (S.foldl (fun t sp => t.set_cell_span sp.row sp.col sp.cs sp.rs)
          t0).covered ↔
        p ∈ t0.covered ∨ ∃ e ∈ S, p ∈ coveredRect e.row e.col e.cs e.rs) := by
  induction S with
  | nil => intro t0 _; simp
  | cons e rest ih =>
    intro t0 hok
    have hguard : ¬ (e.cs ≤ 1 ∧ e.rs ≤ 1) := by
      have := hok e (by simp)
      omega
    have hstep : t0.set_cell_span e.row e.col e.cs e.rs =
        { t0 with
          cell_spans := ((e.row, e.col), CellSpan.mk e.cs e.rs) :: t0.cell_spans
          covered := t0.covered ++ coveredRect e.row e.col e.cs e.rs } := by
      rw [HwpxTable.set_cell_span, if_neg hguard]
    simp only [List.foldl_cons, hstep]
    obtain ⟨hrows, hspans, hcov⟩ := ih
      { t0 with
        cell_spans := ((e.row, e.col), CellSpan.mk e.cs e.rs) :: t0.cell_spans
        covered := t0.covered ++ coveredRect e.row e.col e.cs e.rs }
      (fun e' he' => hok e' (by simp [he']))
    refine ⟨hrows, ?_, ?_⟩
    · intro kv
      rw [hspans kv]
      simp only [List.mem_cons, List.mem_append]
      constructor
      · rintro ((h | h) | ⟨e', he', h⟩)
        · exact Or.inr ⟨e, by simp, h⟩
        · exact Or.inl h
        · exact Or.inr ⟨e', by simp [he'], h⟩
      · rintro (h | ⟨e', he', h⟩)
        · exact Or.inl (Or.inr h)
        · rcases he' with rfl | he''
          · exact Or.inl (Or.inl h)
          · exact Or.inr ⟨e', he'', h⟩
    · intro p
      rw [hcov p]
      simp only [List.mem_append]
      constructor
      · rintro ((h | h) | ⟨e', he', h⟩)
        · exact Or.inl h
        · exact Or.inr ⟨e, by simp, h⟩
        · exact Or.inr ⟨e', by simp [he'], h⟩
      · rintro (h | ⟨e', he', h⟩)
        · exact Or.inl (Or.inl h)
        · rcases List.mem_cons.mp he' with rfl | he''
          · exact Or.inl (Or.inr h)
          · exact Or.inr ⟨e', he'', h⟩

theorem parse_html_table_ok_spec (trRows : List (List ParsedCell))
    (hwf : ∀ row ∈ trRows, ∀ cell ∈ row, 1 ≤ cell.col_span ∧ 1 ≤ cell.row_span)
    (t : HwpxTable) (h : parse_html_table trRows = .ok t) :
    ∃ (S : List SpanRec) (colCount maxRow : Nat),
      1 ≤ maxRow ∧
      t.rows.length = maxRow ∧
      (t.rows.head?.getD []).length = colCount ∧
      (∀ e ∈ S, spanOk colCount maxRow e) ∧
      (∀ e1 ∈ S, ∀ e2 ∈ S, inRect e2 e1.row e1.col →
        e1.row = e2.row ∧ e1.col = e2.col) ∧
      (∀ kv, kv ∈ t.cell_spans ↔
        ∃ e ∈ S, kv = ((e.row, e.col), CellSpan.mk e.cs e.rs)) ∧
      (∀ p, p ∈ t.covered ↔ ∃ e ∈ S, p ∈ coveredRect e.row e.col e.cs e.rs) := by
  simp only [parse_html_table] at h
  by_cases hE : (trRows.filter fun r => !r.isEmpty).isEmpty
  · rw [if_pos hE] at h
    exact absurd h (by simp)
  · rw [if_neg hE] at h
    set parsedRows := trRows.filter fun r => !r.isEmpty with hpr
    set colCount := colCountOf parsedRows with hcc
    set maxRow := maxRowOf parsedRows with hmr
    set stF := placeRows colCount maxRow 0
      { gridF := fun _ _ => "", occ := fun _ _ => false, spans := [] } parsedRows
      with hstF
    have hwf' : ∀ row ∈ parsedRows, ∀ cell ∈ row,
        1 ≤ cell.col_span ∧ 1 ≤ cell.row_span :=
      fun row hrow => hwf row (List.mem_of_mem_filter hrow)
    have hne : parsedRows ≠ [] := by
      simpa [List.isEmpty_iff] using hE
    have hlen1 : 1 ≤ parsedRows.length := List.length_pos.mpr hne
    have hlen : parsedRows.length ≤ maxRow := length_le_maxRowOf parsedRows
    have hinit : PlaceInv colCount maxRow
        { gridF := fun _ _ => "", occ := fun _ _ => false, spans := [] } 0 0 := by
      constructor <;> intro e he <;> exact absurd he (List.not_mem_nil e)
    obtain ⟨cur', invf⟩ := placeRows_inv colCount maxRow parsedRows 0
      { gridF := fun _ _ => "", occ := fun _ _ => false, spans := [] }
      hwf' (by omega) hinit
    have hok : ∀ e ∈ stF.spans, 1 < e.cs ∨ 1 < e.rs :=
      fun e he => (invf.ok e he).2.2.2.2
    obtain ⟨hrows, hspans, hcov⟩ := foldl_set_cell_span stF.spans
      (HwpxTable.from_data
        ((List.range maxRow).map fun r => (List.range colCount).map fun c => stF.gridF r c))
      hok
    have ht : t = stF.spans.foldl (fun t sp => t.set_cell_span sp.row sp.col sp.cs sp.rs)
        (HwpxTable.from_data
          ((List.range maxRow).map fun r => (List.range colCount).map fun c =>
            stF.gridF r c)) := by
      exact (Except.ok.injEq _ _ ▸ h).symm
    refine ⟨stF.spans, colCount, maxRow, by omega, ?_, ?_, invf.ok, invf.no_cover, ?_, ?_⟩
    · rw [ht, hrows]
      simp [HwpxTable.from_data]
    · rw [ht, hrows]
      obtain ⟨k, hk⟩ : ∃ k, maxRow = k + 1 := ⟨maxRow - 1, by omega⟩
      rw [hk]
      simp only [HwpxTable.from_data, List.range_succ_eq_map, List.map_cons,
        List.head?_cons, Option.getD_some, List.length_map, List.length_range]
    · intro kv
      rw [ht]
      rw [hspans kv]
      simp [HwpxTable.from_data]
    · intro p
      rw [ht]
      rw [hcov p]
      simp [HwpxTable.from_data]

/-- Claim C1: in every composed table, each in-range coordinate is exactly
one of an origin cell (a key of the span map, and then its recorded span
exceeds 1×1), a covered cell (member of the covered set, never also a span
key), or an ordinary 1×1 cell (in neither structure). -/
theorem parse_html_table_partition (trRows : List (List ParsedCell))
    (hwf : ∀ row ∈ trRows, ∀ cell ∈ row, 1 ≤ cell.col_span ∧ 1 ≤ cell.row_span)
    (t : HwpxTable) (h : parse_html_table trRows = .ok t) :
    (∀ kv ∈ t.cell_spans, 1 < kv.2.col_span ∨ 1 < kv.2.row_span) ∧
    (∀ r c, r < t.rows.length → c < (t.rows.head?.getD []).length →
      ((t.isOrigin r c = true ∧ (r, c) ∉ t.covered) ∨
       ((r, c) ∈ t.covered ∧ ¬ t.isOrigin r c = true) ∨
       (¬ t.isOrigin r c = true ∧ (r, c) ∉ t.covered))) := by
  obtain ⟨S, colCount, maxRow, _, _, _, hok, hnc, hspans, hcov⟩ :=
    parse_html_table_ok_spec trRows hwf t h
  have horig_iff : ∀ r c, t.isOrigin r c = true ↔
      ∃ e ∈ S, e.row = r ∧ e.col = c := by
    intro r c
    simp only [HwpxTable.isOrigin, List.any_eq_true, decide_eq_true_eq]
    constructor
    · rintro ⟨kv, hkv, hkv1⟩
      obtain ⟨e, he, hkve⟩ := (hspans kv).mp hkv
      subst hkve
      simp only [Prod.mk.injEq] at hkv1
      exact ⟨e, he, hkv1.1, hkv1.2⟩
    · rintro ⟨e, he, hr, hc⟩
      exact ⟨((e.row, e.col), CellSpan.mk e.cs e.rs),
        (hspans _).mpr ⟨e, he, rfl⟩, by simp [hr, hc]⟩
  have hdisj : ∀ r c, t.isOrigin r c = true → (r, c) ∈ t.covered → False := by
    intro r c horig hcovm
    obtain ⟨e1, he1, hr1, hc1⟩ := (horig_iff r c).mp horig
    obtain ⟨e2, he2, hrect⟩ := (hcov (r, c)).mp hcovm
    rw [mem_coveredRect] at hrect
    obtain ⟨hb1, hb2, hb3, hb4, hnot⟩ := hrect
    have := hnc e1 he1 e2 he2 (by rw [hr1, hc1]; exact ⟨hb1, hb2, hb3, hb4⟩)
    exact hnot ⟨by simp only at this ⊢; omega, by simp only at this ⊢; omega⟩
  constructor
  · intro kv hkv
    obtain ⟨e, he, hkve⟩ := (hspans kv).mp hkv
    subst hkve
    exact (hok e he).2.2.2.2
  · intro r c _ _
    by_cases horig : t.isOrigin r c = true
    · exact Or.inl ⟨horig, fun hcovm => hdisj r c horig hcovm⟩
    · by_cases hcovm : (r, c) ∈ t.covered
      · exact Or.inr (Or.inl ⟨hcovm, horig⟩)
      · exact Or.inr (Or.inr ⟨horig, hcovm⟩)

/-- The spec's own rowspan scenario: `G` spans two rows at (0,0), `A` sits at
(0,1), `B` at (1,1), coordinate (1,0) is covered. -/
def trRowsW : List (List ParsedCell) := [[⟨"G", 1, 2⟩, ⟨"A", 1, 1⟩], [⟨"B", 1, 1⟩]]

/-- The table the compositor produces for `trRowsW`. -/
def tableW : HwpxTable :=
  { rows := [["G", "A"], ["", "B"]]
    col_widths := [8390, 8390]
    cell_spans := [((0, 0), ⟨1, 2⟩)]
    covered := [(1, 0)] }

/-- Claim C1, witness: in the composed rowspan scenario, coordinate (1,0) is
a covered cell and not an origin. -/
theorem parse_html_table_partition_witness :
    (tableW.isOrigin 1 0 = true ∧ (1, 0) ∉ tableW.covered) ∨
    ((1, 0) ∈ tableW.covered ∧ ¬ tableW.isOrigin 1 0 = true) ∨
    (¬ tableW.isOrigin 1 0 = true ∧ (1, 0) ∉ tableW.covered) :=
  (parse_html_table_partition trRowsW (by decide) tableW (by rfl)).2 1 0
    (by decide) (by decide)

/-- Claim C4: spans are clipped to the grid during placement — composition is
a total function (never panics), every covered coordinate lies strictly
inside the `rows × cols` grid, and every recorded span's extent fits inside
the grid. -/
theorem parse_html_table_clipped (trRows : List (List ParsedCell))
    (hwf : ∀ row ∈ trRows, ∀ cell ∈ row, 1 ≤ cell.col_span ∧ 1 ≤ cell.row_span)
    (t : HwpxTable) (h : parse_html_table trRows = .ok t) :
    (∀ p ∈ t.covered, p.1 < t.rows.length ∧ p.2 < (t.rows.head?.getD []).length) ∧
    (∀ kv ∈ t.cell_spans, kv.1.1 + kv.2.row_span ≤ t.rows.length ∧
      kv.1.2 + kv.2.col_span ≤ (t.rows.head?.getD []).length) := by
  obtain ⟨S, colCount, maxRow, _, hrc, hcc, hok, _, hspans, hcov⟩ :=
    parse_html_table_ok_spec trRows hwf t h
  constructor
  · intro p hp
    obtain ⟨e, he, hrect⟩ := (hcov p).mp hp
    rw [mem_coveredRect] at hrect
    have hsok := hok e he
    rw [hrc, hcc]
    unfold spanOk at hsok
    omega
  · intro kv hkv
    obtain ⟨e, he, hkve⟩ := (hspans kv).mp hkv
    subst hkve
    have hsok := hok e he
    rw [hrc, hcc]
    unfold spanOk at hsok
    simp only
    omega

/-- A table input whose second-row cell declares `colspan=3` but, because the
first column of row 1 is already covered by `G`'s rowspan, only 2 columns
remain: the span is clipped to 2 and the covered set stays inside the 2×3
grid. -/
def trRowsClipW : List (List ParsedCell) :=
  [[⟨"G", 1, 2⟩, ⟨"A", 1, 1⟩], [⟨"B", 3, 1⟩]]

/-- The table the compositor produces for `trRowsClipW`: `B`'s colspan 3 is
clipped to 2. -/
def tableClipW : HwpxTable :=
  { rows := [["G", "A", ""], ["", "B", ""]]
    col_widths := [8390, 8390, 8390]
    cell_spans := [((1, 1), ⟨2, 1⟩), ((0, 0), ⟨1, 2⟩)]
    covered := [(1, 0), (1, 2)] }

/-- Claim C4, witness: in the clipped composition, covered coordinate (1,2)
lies inside the 2-row × 3-column grid. -/
theorem parse_html_table_clipped_witness :
    (1, 2).1 < tableClipW.rows.length ∧
      (1, 2).2 < (tableClipW.rows.head?.getD []).length :=
  (parse_html_table_clipped trRowsClipW (by decide) tableClipW (by rfl)).1
    (1, 2) (by decide)
